import Mathlib

/-!
Shallow embedding of the 2048 engine in `src/main.js`.

The grid is the `Uint8Array(16)` of tile exponents, modelled as a
`List Nat` of length 16.  Packed rows/columns are 4-nibble machine
integers, modelled as `Nat` with the same `<<<`/`>>>`/`&&&`/`|||`
operations the source uses (all intermediate values stay far below
2^31, so JavaScript 32-bit semantics and `Nat` semantics agree).
The two `Math.random()` draws of a spawn are abstracted by oracle
parameters: a natural number selecting among the empty cells and a
boolean for the 10% chance of spawning a 4-tile.
-/

namespace Game2048

/-- Model of `packRow` from main.js: `(arr[0]<<12) | (arr[1]<<8) | (arr[2]<<4) | arr[3]`. -/
def packRow (arr : List Nat) : Nat :=
  ((arr.getD 0 0) <<< 12) ||| ((arr.getD 1 0) <<< 8) ||| ((arr.getD 2 0) <<< 4) ||| arr.getD 3 0

/-- Model of `unpackRow` from main.js: the four 4-bit fields of a packed row. -/
def unpackRow (row : Nat) : List Nat :=
  [(row >>> 12) &&& 0xF, (row >>> 8) &&& 0xF, (row >>> 4) &&& 0xF, row &&& 0xF]

/-- The merge scan inside `slideAndMerge` (the indexed loop over `nonZero`
with the `i++` skip of a consumed neighbour). -/
def mergeScan : List Nat → List Nat × Nat
  | [] => ([], 0)
  | [x] => ([x], 0)
  | x :: y :: rest =>
    if x ≠ 0 ∧ x = y then
      let r := mergeScan rest
      ((x + 1) :: r.1, r.2 + (1 <<< (x + 1)))
    else
      let r := mergeScan (y :: rest)
      (x :: r.1, r.2)

/-- Model of `slideAndMerge` from main.js: drop zeros, scan-merge, pad with zeros to 4. -/
def slideAndMerge (exps : List Nat) : List Nat × Nat :=
  let nonZero := exps.filter (fun x => x != 0)
  let m := mergeScan nonZero
  (m.1 ++ List.replicate (4 - m.1.length) 0, m.2)

/-- The LEFT table entry `moveTables[DIR.LEFT][row]` built by `buildRowTable`. -/
def moveTableLeft (row : Nat) : Nat × Nat :=
  let a := (row >>> 12) &&& 0xF
  let b := (row >>> 8) &&& 0xF
  let c := (row >>> 4) &&& 0xF
  let d := row &&& 0xF
  let left := slideAndMerge [a, b, c, d]
  (packRow left.1, left.2)

/-- The RIGHT table entry `moveTables[DIR.RIGHT][row]` built by `buildRowTable`:
slide the reversed row, then reverse the result before packing. -/
def moveTableRight (row : Nat) : Nat × Nat :=
  let a := (row >>> 12) &&& 0xF
  let b := (row >>> 8) &&& 0xF
  let c := (row >>> 4) &&& 0xF
  let d := row &&& 0xF
  let right := slideAndMerge [d, c, b, a]
  (packRow right.1.reverse, right.2)

/-- Nibble reversal of a packed row (the "mirror image" of a row). -/
def mirrorRow (row : Nat) : Nat := packRow (unpackRow row).reverse

/-- Does the packed value have a zero 4-bit field? (the fields `setRow`
and `setCol` write back into the grid). -/
def hasZeroNibble (row : Nat) : Bool :=
  ((row >>> 12) &&& 0xF == 0) || ((row >>> 8) &&& 0xF == 0) ||
  ((row >>> 4) &&& 0xF == 0) || (row &&& 0xF == 0)

/-- The board: `grid = new Uint8Array(16)` of exponents, row-major. -/
abbrev Grid := List Nat

/-- Model of `getRow` from main.js. -/
def getRow (g : Grid) (r : Nat) : Nat :=
  packRow [g.getD (r * 4) 0, g.getD (r * 4 + 1) 0, g.getD (r * 4 + 2) 0, g.getD (r * 4 + 3) 0]

/-- Model of `setRow` from main.js (each store masks with `&0xF`). -/
def setRow (g : Grid) (r : Nat) (packed : Nat) : Grid :=
  ((((g.set (r * 4) ((packed >>> 12) &&& 0xF)).set (r * 4 + 1) ((packed >>> 8) &&& 0xF)).set
      (r * 4 + 2) ((packed >>> 4) &&& 0xF)).set (r * 4 + 3) (packed &&& 0xF))

/-- Model of `getCol` from main.js. -/
def getCol (g : Grid) (c : Nat) : Nat :=
  ((g.getD c 0) <<< 12) ||| ((g.getD (4 + c) 0) <<< 8) ||| ((g.getD (8 + c) 0) <<< 4) |||
    g.getD (12 + c) 0

/-- Model of `setCol` from main.js. -/
def setCol (g : Grid) (c : Nat) (packed : Nat) : Grid :=
  ((((g.set c ((packed >>> 12) &&& 0xF)).set (4 + c) ((packed >>> 8) &&& 0xF)).set
      (8 + c) ((packed >>> 4) &&& 0xF)).set (12 + c) (packed &&& 0xF))

/-- Model of `canMove` from main.js: an empty cell, or an adjacent equal pair in a
row or in a column, makes a move possible. -/
def canMove (g : Grid) : Bool :=
  ((List.range 16).any fun i => g.getD i 0 == 0) ||
  ((List.range 4).any fun r =>
    let row := unpackRow (getRow g r)
    (List.range 3).any fun i => (row.getD i 0 != 0) && (row.getD i 0 == row.getD (i + 1) 0)) ||
  ((List.range 4).any fun c =>
    let col := unpackRow (getCol g c)
    (List.range 3).any fun i => (col.getD i 0 != 0) && (col.getD i 0 == col.getD (i + 1) 0))

/-- The `empties` list collected by `randomEmptyCellIndex`. -/
def emptyCellIndices (g : Grid) : List Nat :=
  (List.range 16).filter (fun i => g.getD i 0 == 0)

/-- Model of `addRandomTile` from main.js.  The two `Math.random()` draws are
abstracted: `k` selects the empty cell (the source draws uniformly via
`empties[(Math.random()*empties.length)|0]`; any in-range index is
reachable, modelled as `k % empties.length`), and `two` is the event
`Math.random() >= 0.9` that spawns exponent 2 instead of 1.
With no empty cell the function is a no-op, as in the source. -/
def addRandomTile (k : Nat) (two : Bool) (g : Grid) : Grid :=
  let empties := emptyCellIndices g
  if empties.isEmpty then g
  else g.set (empties.getD (k % empties.length) 0) (if two then 2 else 1)

/-- The per-line loop of `move`: read a line, look it up, write it back
when it changed, accumulate the gained score, or the moved flags. -/
def applyLines (table : Nat → Nat × Nat) (rd : Grid → Nat → Nat) (wr : Grid → Nat → Nat → Grid) :
    Grid → List Nat → Grid × Bool × Nat
  | g, [] => (g, false, 0)
  | g, i :: is =>
    let res := table (rd g i)
    if rd g i = res.1 then
      let rest := applyLines table rd wr g is
      (rest.1, rest.2.1, res.2 + rest.2.2)
    else
      let rest := applyLines table rd wr (wr g i res.1) is
      (rest.1, true, res.2 + rest.2.2)

/-- The grid/moved/gained part of `move(dir)`: the four dispatch branches
of main.js (`DIR = { LEFT:0, RIGHT:1, UP:2, DOWN:3 }`; UP reuses the LEFT
table on columns and DOWN the RIGHT table).  Any other value of `dir`
falls through every branch leaving `moved = false` and `gained = 0`. -/
def slideResult (dir : Int) (g : Grid) : Grid × Bool × Nat :=
  if dir = 0 then applyLines moveTableLeft getRow setRow g [0, 1, 2, 3]
  else if dir = 1 then applyLines moveTableRight getRow setRow g [0, 1, 2, 3]
  else if dir = 2 then applyLines moveTableLeft getCol setCol g [0, 1, 2, 3]
  else if dir = 3 then applyLines moveTableRight getCol setCol g [0, 1, 2, 3]
  else (g, false, 0)

/-- The mutable state of main.js touched by `move` and `reset`:
`grid`, `score` and `best`. -/
structure St where
  grid : Grid
  score : Nat
  best : Nat

/-- Model of `move(dir)` from main.js: apply the four line lookups; when some line
changed, add the gain to the score, raise `best` when exceeded, and spawn
one random tile; return whether the board changed. -/
def move (dir : Int) (k : Nat) (two : Bool) (s : St) : St × Bool :=
  let res := slideResult dir s.grid
  if res.2.1 then
    let score := s.score + res.2.2
    let best := if score > s.best then score else s.best
    ({ grid := addRandomTile k two res.1, score := score, best := best }, true)
  else
    ({ grid := res.1, score := s.score, best := s.best }, false)

/-- Model of `reset` from main.js: clear the grid, zero the score, spawn twice.
(`best` is not touched by `reset`.) -/
def reset (k1 : Nat) (two1 : Bool) (k2 : Nat) (two2 : Bool) (s : St) : St :=
  let g0 : Grid := List.replicate 16 0
  let g1 := addRandomTile k1 two1 g0
  let g2 := addRandomTile k2 two2 g1
  { grid := g2, score := 0, best := s.best }

/-- Number of non-empty cells of a grid. -/
def nonEmptyCount (g : Grid) : Nat := g.countP (fun x => x != 0)

/-- Some cell of the board is empty. -/
def hasZeroCell (g : Grid) : Prop := ∃ i, i < 16 ∧ g.getD i 0 = 0

/-- The board representation invariant: 16 cells, each a 4-bit exponent. -/
def validGrid (g : Grid) : Prop := g.length = 16 ∧ ∀ x ∈ g, x ≤ 15

/-- Reference merge scan, written from the spec's words: "Scan remaining
cells left to right; if a cell equals its immediate next un-merged
neighbor, replace the pair with a single cell of exponent+1, add
2^(exponent+1) to the row's gained score, and skip the consumed neighbor
(a tile may merge at most once per move)." -/
def refMergeScan : List Nat → List Nat × Nat
  | [] => ([], 0)
  | [x] => ([x], 0)
  | x :: y :: rest =>
    if x = y then
      let r := refMergeScan rest
      ((x + 1) :: r.1, r.2 + 2 ^ (x + 1))
    else
      let r := refMergeScan (y :: rest)
      (x :: r.1, r.2)

/-- Reference slide-left-and-merge, written from the spec's words:
"Remove zero cells, preserving order", scan-merge, "Right-pad the result
with zeros to 4 cells". -/
def refSlideMerge (exps : List Nat) : List Nat × Nat :=
  let kept := exps.filter (fun x => decide (x ≠ 0))
  let m := refMergeScan kept
  (m.1 ++ List.replicate (4 - m.1.length) 0, m.2)

end Game2048

namespace Game2048

/-! ### Bit-level toolkit -/

theorem or_shiftRight (a b n : Nat) : (a ||| b) >>> n = (a >>> n) ||| (b >>> n) := by
  apply Nat.eq_of_testBit_eq
  intro i
  simp

theorem and15_eq_mod (x : Nat) : x &&& 15 = x % 16 := by
  have h := Nat.and_pow_two_sub_one_eq_mod x 4
  norm_num at h
  exact h

theorem shiftLeft_twelve (w : Nat) : w <<< 12 = w * 4096 := by
  rw [Nat.shiftLeft_eq]

theorem shiftLeft_eight (w : Nat) : w <<< 8 = w * 256 := by
  rw [Nat.shiftLeft_eq]

theorem shiftLeft_four (w : Nat) : w <<< 4 = w * 16 := by
  rw [Nat.shiftLeft_eq]

theorem shiftRight_four (w : Nat) : w >>> 4 = w / 16 := by
  rw [Nat.shiftRight_eq_div_pow]

theorem shiftRight_eight (w : Nat) : w >>> 8 = w / 256 := by
  rw [Nat.shiftRight_eq_div_pow]

theorem shiftRight_twelve (w : Nat) : w >>> 12 = w / 4096 := by
  rw [Nat.shiftRight_eq_div_pow]

theorem packRow_cons (w x y z : Nat) :
    packRow [w, x, y, z] = ((w <<< 12) ||| (x <<< 8)) ||| (y <<< 4) ||| z := rfl

theorem nib3_pack (w x y z : Nat) : packRow [w, x, y, z] &&& 15 = z % 16 := by
  have hw : (w <<< 12) &&& 15 = 0 := by
    rw [shiftLeft_twelve, and15_eq_mod]
    omega
  have hx : (x <<< 8) &&& 15 = 0 := by
    rw [shiftLeft_eight, and15_eq_mod]
    omega
  have hy : (y <<< 4) &&& 15 = 0 := by
    rw [shiftLeft_four, and15_eq_mod]
    omega
  rw [packRow_cons, Nat.and_distrib_right, Nat.and_distrib_right, Nat.and_distrib_right,
    hw, hx, hy, and15_eq_mod]
  simp

theorem nib2_pack (w x y : Nat) {z : Nat} (hz : z ≤ 15) :
    (packRow [w, x, y, z] >>> 4) &&& 15 = y % 16 := by
  have hw : (w <<< 12) >>> 4 = w <<< 8 := by
    rw [shiftLeft_twelve, shiftRight_four, shiftLeft_eight]
    omega
  have hx : (x <<< 8) >>> 4 = x <<< 4 := by
    rw [shiftLeft_eight, shiftRight_four, shiftLeft_four]
    omega
  have hy : (y <<< 4) >>> 4 = y := by
    rw [shiftLeft_four, shiftRight_four]
    omega
  have hz' : z >>> 4 = 0 := by
    rw [shiftRight_four]
    omega
  have hw' : (w <<< 8) &&& 15 = 0 := by
    rw [shiftLeft_eight, and15_eq_mod]
    omega
  have hx' : (x <<< 4) &&& 15 = 0 := by
    rw [shiftLeft_four, and15_eq_mod]
    omega
  rw [packRow_cons, or_shiftRight, or_shiftRight, or_shiftRight, hw, hx, hy, hz',
    Nat.or_zero, Nat.and_distrib_right, Nat.and_distrib_right, hw', hx', and15_eq_mod]
  simp

theorem nib1_pack (w x : Nat) {y z : Nat} (hy : y ≤ 15) (hz : z ≤ 15) :
    (packRow [w, x, y, z] >>> 8) &&& 15 = x % 16 := by
  have hw : (w <<< 12) >>> 8 = w <<< 4 := by
    rw [shiftLeft_twelve, shiftRight_eight, shiftLeft_four]
    omega
  have hx : (x <<< 8) >>> 8 = x := by
    rw [shiftLeft_eight, shiftRight_eight]
    omega
  have hy' : (y <<< 4) >>> 8 = 0 := by
    rw [shiftLeft_four, shiftRight_eight]
    omega
  have hz' : z >>> 8 = 0 := by
    rw [shiftRight_eight]
    omega
  have hw' : (w <<< 4) &&& 15 = 0 := by
    rw [shiftLeft_four, and15_eq_mod]
    omega
  rw [packRow_cons, or_shiftRight, or_shiftRight, or_shiftRight, hw, hx, hy', hz',
    Nat.or_zero, Nat.or_zero, Nat.and_distrib_right, hw', and15_eq_mod]
  simp

theorem nib0_pack (w : Nat) {x y z : Nat} (hx : x ≤ 15) (hy : y ≤ 15) (hz : z ≤ 15) :
    (packRow [w, x, y, z] >>> 12) &&& 15 = w % 16 := by
  have hw : (w <<< 12) >>> 12 = w := by
    rw [shiftLeft_twelve, shiftRight_twelve]
    omega
  have hx' : (x <<< 8) >>> 12 = 0 := by
    rw [shiftLeft_eight, shiftRight_twelve]
    omega
  have hy' : (y <<< 4) >>> 12 = 0 := by
    rw [shiftLeft_four, shiftRight_twelve]
    omega
  have hz' : z >>> 12 = 0 := by
    rw [shiftRight_twelve]
    omega
  rw [packRow_cons, or_shiftRight, or_shiftRight, or_shiftRight, hw, hx', hy', hz',
    Nat.or_zero, Nat.or_zero, Nat.or_zero, and15_eq_mod]

theorem unpackRow_packRow {w x y z : Nat} (hw : w ≤ 15) (hx : x ≤ 15) (hy : y ≤ 15)
    (hz : z ≤ 15) : unpackRow (packRow [w, x, y, z]) = [w, x, y, z] := by
  show [(packRow [w, x, y, z] >>> 12) &&& 15, (packRow [w, x, y, z] >>> 8) &&& 15,
    (packRow [w, x, y, z] >>> 4) &&& 15, packRow [w, x, y, z] &&& 15] = [w, x, y, z]
  rw [nib0_pack w hx hy hz, nib1_pack w x hy hz, nib2_pack w x y hz, nib3_pack,
    Nat.mod_eq_of_lt (show w < 16 by omega), Nat.mod_eq_of_lt (show x < 16 by omega),
    Nat.mod_eq_of_lt (show y < 16 by omega), Nat.mod_eq_of_lt (show z < 16 by omega)]

theorem packRow_lt {w x y z : Nat} (hw : w ≤ 15) (hx : x ≤ 15) (hy : y ≤ 15)
    (hz : z ≤ 15) : packRow [w, x, y, z] < 65536 := by
  have h16 : (65536 : Nat) = 2 ^ 16 := by norm_num
  rw [packRow_cons, h16]
  refine Nat.or_lt_two_pow (Nat.or_lt_two_pow (Nat.or_lt_two_pow ?_ ?_) ?_) ?_
  · rw [shiftLeft_twelve]
    norm_num
    omega
  · rw [shiftLeft_eight]
    norm_num
    omega
  · rw [shiftLeft_four]
    norm_num
    omega
  · norm_num
    omega

theorem unpackRow_le (v : Nat) : ∀ x ∈ unpackRow v, x ≤ 15 := by
  intro x hx
  simp only [unpackRow, List.mem_cons, List.not_mem_nil, or_false] at hx
  rcases hx with h | h | h | h <;> subst h <;> exact Nat.and_le_right

/-! ### List helpers -/

theorem getD_le {g : List Nat} (hval : ∀ x ∈ g, x ≤ 15) (i : Nat) : g.getD i 0 ≤ 15 := by
  rcases Nat.lt_or_ge i g.length with h | h
  · rw [List.getD_eq_getElem g 0 h]
    exact hval _ (List.getElem_mem h)
  · rw [List.getD_eq_default g 0 h]
    omega

theorem getD_set_self {l : List Nat} {i : Nat} (x : Nat) (h : i < l.length) :
    (l.set i x).getD i 0 = x := by
  rw [List.getD_eq_getElem _ 0 (by simpa using h)]
  exact List.getElem_set_self (by simpa using h)

theorem getD_set_ne {l : List Nat} {i j : Nat} (x : Nat) (h : i ≠ j) :
    (l.set i x).getD j 0 = l.getD j 0 := by
  simp only [List.getD_eq_getElem?_getD]
  rw [List.getElem?_set_ne h]

theorem length_four_decomp {l : List Nat} (h : l.length = 4) :
    ∃ w x y z, l = [w, x, y, z] := by
  rcases l with _ | ⟨w, l⟩
  · simp at h
  rcases l with _ | ⟨x, l⟩
  · simp at h
  rcases l with _ | ⟨y, l⟩
  · simp at h
  rcases l with _ | ⟨z, l⟩
  · simp at h
  rcases l with _ | ⟨e, l⟩
  · exact ⟨w, x, y, z, rfl⟩
  · simp at h

/-! ### Merge-scan structure -/

theorem mergeScan_length_le : ∀ l : List Nat, (mergeScan l).1.length ≤ l.length
  | [] => by simp [mergeScan]
  | [x] => by simp [mergeScan]
  | x :: y :: rest => by
    by_cases hc : x ≠ 0 ∧ x = y
    · have h1 := mergeScan_length_le rest
      rw [mergeScan, if_pos hc]
      show ((x + 1) :: (mergeScan rest).1).length ≤ (x :: y :: rest).length
      simp only [List.length_cons]
      omega
    · have h1 := mergeScan_length_le (y :: rest)
      rw [mergeScan, if_neg hc]
      show (x :: (mergeScan (y :: rest)).1).length ≤ (x :: y :: rest).length
      simp only [List.length_cons] at h1 ⊢
      omega

theorem mergeScan_nonzero : ∀ l : List Nat, (∀ x ∈ l, x ≠ 0) →
    ∀ x ∈ (mergeScan l).1, x ≠ 0
  | [] => by simp [mergeScan]
  | [x] => by
    intro h u hu
    simp [mergeScan] at hu
    subst hu
    exact h u (by simp)
  | x :: y :: rest => by
    intro h
    by_cases hc : x ≠ 0 ∧ x = y
    · rw [mergeScan, if_pos hc]
      show ∀ u ∈ (x + 1) :: (mergeScan rest).1, u ≠ 0
      intro u hu
      rcases List.mem_cons.1 hu with h1 | h1
      · omega
      · exact mergeScan_nonzero rest (fun v hv => h v (by simp [hv])) u h1
    · rw [mergeScan, if_neg hc]
      show ∀ u ∈ x :: (mergeScan (y :: rest)).1, u ≠ 0
      intro u hu
      rcases List.mem_cons.1 hu with h1 | h1
      · subst h1
        exact h u (by simp)
      · exact mergeScan_nonzero (y :: rest) (fun v hv => h v (by simp [List.mem_cons.1 hv])) u h1

theorem mergeScan_le16 : ∀ l : List Nat, (∀ x ∈ l, x ≤ 15) →
    ∀ x ∈ (mergeScan l).1, x ≤ 16
  | [] => by simp [mergeScan]
  | [x] => by
    intro h u hu
    simp [mergeScan] at hu
    subst hu
    have := h u (by simp)
    omega
  | x :: y :: rest => by
    intro h
    by_cases hc : x ≠ 0 ∧ x = y
    · rw [mergeScan, if_pos hc]
      show ∀ u ∈ (x + 1) :: (mergeScan rest).1, u ≤ 16
      intro u hu
      rcases List.mem_cons.1 hu with h1 | h1
      · have := h x (by simp)
        omega
      · exact mergeScan_le16 rest (fun v hv => h v (by simp [hv])) u h1
    · rw [mergeScan, if_neg hc]
      show ∀ u ∈ x :: (mergeScan (y :: rest)).1, u ≤ 16
      intro u hu
      rcases List.mem_cons.1 hu with h1 | h1
      · subst h1
        have := h u (by simp)
        omega
      · exact mergeScan_le16 (y :: rest) (fun v hv => h v (by simp [List.mem_cons.1 hv])) u h1

theorem mergeScan_full : ∀ l : List Nat, (mergeScan l).1.length = l.length →
    mergeScan l = (l, 0)
  | [] => by simp [mergeScan]
  | [x] => by simp [mergeScan]
  | x :: y :: rest => by
    intro h
    by_cases hc : x ≠ 0 ∧ x = y
    · exfalso
      have h2 := mergeScan_length_le rest
      rw [mergeScan, if_pos hc] at h
      have h3 : ((x + 1) :: (mergeScan rest).1).length = (x :: y :: rest).length := h
      simp only [List.length_cons] at h3
      omega
    · have hlen : (mergeScan (y :: rest)).1.length = (y :: rest).length := by
        rw [mergeScan, if_neg hc] at h
        have h3 : (x :: (mergeScan (y :: rest)).1).length = (x :: y :: rest).length := h
        simp only [List.length_cons] at h3 ⊢
        omega
      rw [mergeScan, if_neg hc]
      show (x :: (mergeScan (y :: rest)).1, (mergeScan (y :: rest)).2) = (x :: y :: rest, 0)
      rw [mergeScan_full (y :: rest) hlen]

/-! ### Slide-and-merge structure -/

theorem slideAndMerge_eq (l : List Nat) :
    slideAndMerge l = ((mergeScan (l.filter (fun x => x != 0))).1 ++
      List.replicate (4 - (mergeScan (l.filter (fun x => x != 0))).1.length) 0,
      (mergeScan (l.filter (fun x => x != 0))).2) := rfl

theorem moveTableLeft_eq (v : Nat) :
    moveTableLeft v = (packRow (slideAndMerge (unpackRow v)).1,
      (slideAndMerge (unpackRow v)).2) := rfl

theorem moveTableRight_eq (v : Nat) :
    moveTableRight v = (packRow (slideAndMerge (unpackRow v).reverse).1.reverse,
      (slideAndMerge (unpackRow v).reverse).2) := rfl

theorem slideAndMerge_length {l : List Nat} (h : l.length ≤ 4) :
    (slideAndMerge l).1.length = 4 := by
  rw [slideAndMerge_eq]
  have h1 := mergeScan_length_le (l.filter (fun x => x != 0))
  have h2 := List.length_filter_le (fun x => x != 0) l
  simp only [List.length_append, List.length_replicate]
  omega

theorem slideAndMerge_zero_mem {l : List Nat} (hlen : l.length = 4)
    (hne : (slideAndMerge l).1 ≠ l) : 0 ∈ (slideAndMerge l).1 := by
  have h1 := mergeScan_length_le (l.filter (fun x => x != 0))
  have h2 := List.length_filter_le (fun x => x != 0) l
  by_cases hm : (mergeScan (l.filter (fun x => x != 0))).1.length = 4
  · exfalso
    have hfl : (l.filter (fun x => x != 0)).length = 4 := by omega
    have hfeq : l.filter (fun x => x != 0) = l :=
      (List.filter_sublist l).eq_of_length (by omega)
    have hms := mergeScan_full (l.filter (fun x => x != 0)) (by omega)
    have hms1 : (mergeScan (l.filter (fun x => x != 0))).1 = l.filter (fun x => x != 0) := by
      rw [hms]
    apply hne
    rw [slideAndMerge_eq, hms1, hfeq, hlen]
    simp
  · rw [slideAndMerge_eq]
    apply List.mem_append_right
    rw [List.mem_replicate]
    constructor
    · omega
    · rfl

theorem slideAndMerge_le16 {l : List Nat} (hl : ∀ x ∈ l, x ≤ 15) :
    ∀ x ∈ (slideAndMerge l).1, x ≤ 16 := by
  intro x hx
  rw [slideAndMerge_eq] at hx
  rcases List.mem_append.1 hx with h | h
  · exact mergeScan_le16 _ (fun v hv => hl v (List.mem_of_mem_filter hv)) x h
  · have := List.eq_of_mem_replicate h
    omega

/-- A 4-cell list whose entries are at most 16 and which contains a zero
packs to a value with a zero 4-bit field: a 16-valued cell clears its own
field (16 &&& 15 = 0) and only carries one bit into the field above it. -/
theorem pack_zero_nibble {p q u t : Nat} (hp : p ≤ 16) (hq : q ≤ 16) (hu : u ≤ 16)
    (ht : t ≤ 16) (h : p = 0 ∨ q = 0 ∨ u = 0 ∨ t = 0) :
    hasZeroNibble (packRow [p, q, u, t]) = true := by
  simp only [hasZeroNibble, Bool.or_eq_true, beq_iff_eq]
  by_cases ht0 : t = 0 ∨ t = 16
  · have h3 := nib3_pack p q u t
    right
    omega
  · have ht' : t ≤ 15 := by omega
    by_cases hu0 : u = 0 ∨ u = 16
    · have h2 := nib2_pack p q u ht'
      left
      right
      omega
    · have hu' : u ≤ 15 := by omega
      by_cases hq0 : q = 0 ∨ q = 16
      · have h1 := nib1_pack p q hu' ht'
        left
        left
        right
        omega
      · have hq' : q ≤ 15 := by omega
        have hp0 : p = 0 := by omega
        have h0 := nib0_pack p hq' hu' ht'
        left
        left
        left
        omega

/-! ### A changed table entry always contains an empty field -/

theorem changed_left_zero {w x y z : Nat} (hw : w ≤ 15) (hx : x ≤ 15) (hy : y ≤ 15)
    (hz : z ≤ 15) (hne : (moveTableLeft (packRow [w, x, y, z])).1 ≠ packRow [w, x, y, z]) :
    hasZeroNibble (moveTableLeft (packRow [w, x, y, z])).1 = true := by
  have hcells : unpackRow (packRow [w, x, y, z]) = [w, x, y, z] :=
    unpackRow_packRow hw hx hy hz
  rw [moveTableLeft_eq, hcells] at hne ⊢
  have hlen4 : (slideAndMerge [w, x, y, z]).1.length = 4 := slideAndMerge_length (by simp)
  obtain ⟨p, q, u, t, hd⟩ := length_four_decomp hlen4
  have hne' : (slideAndMerge [w, x, y, z]).1 ≠ [w, x, y, z] := by
    intro hcontra
    exact hne (by rw [hcontra])
  have hmem : 0 ∈ (slideAndMerge [w, x, y, z]).1 := slideAndMerge_zero_mem (by simp) hne'
  have hle : ∀ v ∈ (slideAndMerge [w, x, y, z]).1, v ≤ 16 := by
    apply slideAndMerge_le16
    intro v hv
    simp only [List.mem_cons, List.not_mem_nil, or_false] at hv
    rcases hv with h | h | h | h <;> omega
  rw [hd] at hmem hle ⊢
  have hp := hle p (by simp)
  have hq := hle q (by simp)
  have hu := hle u (by simp)
  have ht := hle t (by simp)
  apply pack_zero_nibble hp hq hu ht
  have h0 : 0 = p ∨ 0 = q ∨ 0 = u ∨ 0 = t := by simpa using hmem
  omega

theorem changed_right_zero {w x y z : Nat} (hw : w ≤ 15) (hx : x ≤ 15) (hy : y ≤ 15)
    (hz : z ≤ 15) (hne : (moveTableRight (packRow [w, x, y, z])).1 ≠ packRow [w, x, y, z]) :
    hasZeroNibble (moveTableRight (packRow [w, x, y, z])).1 = true := by
  have hcells : unpackRow (packRow [w, x, y, z]) = [w, x, y, z] :=
    unpackRow_packRow hw hx hy hz
  rw [moveTableRight_eq, hcells] at hne ⊢
  have hrev : ([w, x, y, z] : List Nat).reverse = [z, y, x, w] := rfl
  rw [hrev] at hne ⊢
  have hlen4 : (slideAndMerge [z, y, x, w]).1.length = 4 := slideAndMerge_length (by simp)
  obtain ⟨p, q, u, t, hd⟩ := length_four_decomp hlen4
  have hne' : (slideAndMerge [z, y, x, w]).1 ≠ [z, y, x, w] := by
    have hrev2 : ([z, y, x, w] : List Nat).reverse = [w, x, y, z] := rfl
    intro hcontra
    apply hne
    rw [hcontra, hrev2]
  have hmem : 0 ∈ (slideAndMerge [z, y, x, w]).1 := slideAndMerge_zero_mem (by simp) hne'
  have hle : ∀ v ∈ (slideAndMerge [z, y, x, w]).1, v ≤ 16 := by
    apply slideAndMerge_le16
    intro v hv
    simp only [List.mem_cons, List.not_mem_nil, or_false] at hv
    rcases hv with h | h | h | h <;> omega
  rw [hd] at hmem hle ⊢
  have hp := hle p (by simp)
  have hq := hle q (by simp)
  have hu := hle u (by simp)
  have ht := hle t (by simp)
  show hasZeroNibble (packRow [t, u, q, p]) = true
  apply pack_zero_nibble ht hu hq hp
  have h0 : 0 = p ∨ 0 = q ∨ 0 = u ∨ 0 = t := by simpa using hmem
  omega

/-! ### Grid write lemmas -/

theorem setRow_length (g : Grid) (r p : Nat) : (setRow g r p).length = g.length := by
  simp [setRow]

theorem setCol_length (g : Grid) (c p : Nat) : (setCol g c p).length = g.length := by
  simp [setCol]

theorem set_le15 {l : List Nat} {i v : Nat} (hl : ∀ x ∈ l, x ≤ 15) (hv : v ≤ 15) :
    ∀ x ∈ l.set i v, x ≤ 15 := by
  intro x hx
  rcases List.mem_or_eq_of_mem_set hx with h | h
  · exact hl x h
  · omega

theorem setRow_valid {g : Grid} {r p : Nat} (h : validGrid g) : validGrid (setRow g r p) := by
  obtain ⟨hlen, hval⟩ := h
  refine ⟨by simp [setRow, hlen], ?_⟩
  exact set_le15 (set_le15 (set_le15 (set_le15 hval Nat.and_le_right) Nat.and_le_right)
    Nat.and_le_right) Nat.and_le_right

theorem setCol_valid {g : Grid} {c p : Nat} (h : validGrid g) : validGrid (setCol g c p) := by
  obtain ⟨hlen, hval⟩ := h
  refine ⟨by simp [setCol, hlen], ?_⟩
  exact set_le15 (set_le15 (set_le15 (set_le15 hval Nat.and_le_right) Nat.and_le_right)
    Nat.and_le_right) Nat.and_le_right

theorem setRow_zero_cell {g : Grid} {r p : Nat} (hlen : g.length = 16) (hr : r < 4)
    (hz : hasZeroNibble p = true) : hasZeroCell (setRow g r p) := by
  simp only [hasZeroNibble, Bool.or_eq_true, beq_iff_eq] at hz
  rcases hz with ((h0 | h1) | h2) | h3
  · refine ⟨r * 4, by omega, ?_⟩
    show (setRow g r p).getD (r * 4) 0 = 0
    unfold setRow
    rw [getD_set_ne _ (by omega), getD_set_ne _ (by omega), getD_set_ne _ (by omega),
      getD_set_self _ (by omega)]
    exact h0
  · refine ⟨r * 4 + 1, by omega, ?_⟩
    show (setRow g r p).getD (r * 4 + 1) 0 = 0
    unfold setRow
    rw [getD_set_ne _ (by omega), getD_set_ne _ (by omega),
      getD_set_self _ (by simp [hlen]; omega)]
    exact h1
  · refine ⟨r * 4 + 2, by omega, ?_⟩
    show (setRow g r p).getD (r * 4 + 2) 0 = 0
    unfold setRow
    rw [getD_set_ne _ (by omega), getD_set_self _ (by simp [hlen]; omega)]
    exact h2
  · refine ⟨r * 4 + 3, by omega, ?_⟩
    show (setRow g r p).getD (r * 4 + 3) 0 = 0
    unfold setRow
    rw [getD_set_self _ (by simp [hlen]; omega)]
    exact h3

theorem setCol_zero_cell {g : Grid} {c p : Nat} (hlen : g.length = 16) (hc : c < 4)
    (hz : hasZeroNibble p = true) : hasZeroCell (setCol g c p) := by
  simp only [hasZeroNibble, Bool.or_eq_true, beq_iff_eq] at hz
  rcases hz with ((h0 | h1) | h2) | h3
  · refine ⟨c, by omega, ?_⟩
    show (setCol g c p).getD c 0 = 0
    unfold setCol
    rw [getD_set_ne _ (by omega), getD_set_ne _ (by omega), getD_set_ne _ (by omega),
      getD_set_self _ (by omega)]
    exact h0
  · refine ⟨4 + c, by omega, ?_⟩
    show (setCol g c p).getD (4 + c) 0 = 0
    unfold setCol
    rw [getD_set_ne _ (by omega), getD_set_ne _ (by omega),
      getD_set_self _ (by simp [hlen]; omega)]
    exact h1
  · refine ⟨8 + c, by omega, ?_⟩
    show (setCol g c p).getD (8 + c) 0 = 0
    unfold setCol
    rw [getD_set_ne _ (by omega), getD_set_self _ (by simp [hlen]; omega)]
    exact h2
  · refine ⟨12 + c, by omega, ?_⟩
    show (setCol g c p).getD (12 + c) 0 = 0
    unfold setCol
    rw [getD_set_self _ (by simp [hlen]; omega)]
    exact h3

/-! ### Line-loop lemmas -/

theorem applyLines_not_moved {table : Nat → Nat × Nat} {rd : Grid → Nat → Nat}
    {wr : Grid → Nat → Nat → Grid} : ∀ (is : List Nat) (g : Grid),
    (applyLines table rd wr g is).2.1 = false → (applyLines table rd wr g is).1 = g
  | [], g => by
    intro h
    rfl
  | i :: is, g => by
    intro h
    by_cases hc : rd g i = (table (rd g i)).1
    · rw [applyLines, if_pos hc] at h ⊢
      exact applyLines_not_moved is g h
    · rw [applyLines, if_neg hc] at h
      exact absurd h (by simp)

theorem applyLines_valid {table : Nat → Nat × Nat} {rd : Grid → Nat → Nat}
    {wr : Grid → Nat → Nat → Grid} (hwr : ∀ g i p, validGrid g → validGrid (wr g i p)) :
    ∀ (is : List Nat) (g : Grid), validGrid g → validGrid (applyLines table rd wr g is).1
  | [], g => by
    intro h
    exact h
  | i :: is, g => by
    intro h
    by_cases hc : rd g i = (table (rd g i)).1
    · rw [applyLines, if_pos hc]
      exact applyLines_valid hwr is g h
    · rw [applyLines, if_neg hc]
      exact applyLines_valid hwr is _ (hwr g i _ h)

theorem applyLines_moved_zero {table : Nat → Nat × Nat} {rd : Grid → Nat → Nat}
    {wr : Grid → Nat → Nat → Grid} (hwr : ∀ g i p, validGrid g → validGrid (wr g i p))
    (hzero : ∀ g i, i < 4 → validGrid g → rd g i ≠ (table (rd g i)).1 →
      hasZeroCell (wr g i (table (rd g i)).1)) :
    ∀ (is : List Nat) (g : Grid), (∀ i ∈ is, i < 4) → validGrid g →
      (applyLines table rd wr g is).2.1 = true → hasZeroCell (applyLines table rd wr g is).1
  | [], g => by
    intro _ _ h
    exact absurd h (by simp [applyLines])
  | i :: is, g => by
    intro his hg h
    by_cases hc : rd g i = (table (rd g i)).1
    · rw [applyLines, if_pos hc] at h ⊢
      exact applyLines_moved_zero hwr hzero is g (fun j hj => his j (by simp [hj])) hg h
    · rw [applyLines, if_neg hc]
      have hg1 : validGrid (wr g i (table (rd g i)).1) := hwr g i _ hg
      by_cases hrest : (applyLines table rd wr (wr g i (table (rd g i)).1) is).2.1 = true
      · show hasZeroCell (applyLines table rd wr (wr g i (table (rd g i)).1) is).1
        exact applyLines_moved_zero hwr hzero is _ (fun j hj => his j (by simp [hj])) hg1 hrest
      · show hasZeroCell (applyLines table rd wr (wr g i (table (rd g i)).1) is).1
        rw [applyLines_not_moved is _ (by simpa using hrest)]
        exact hzero g i (his i (by simp)) hg hc

theorem getRow_eq_pack (g : Grid) (r : Nat) : getRow g r =
    packRow [g.getD (r * 4) 0, g.getD (r * 4 + 1) 0, g.getD (r * 4 + 2) 0,
      g.getD (r * 4 + 3) 0] := rfl

theorem getCol_eq_pack (g : Grid) (c : Nat) : getCol g c =
    packRow [g.getD c 0, g.getD (4 + c) 0, g.getD (8 + c) 0, g.getD (12 + c) 0] := rfl

theorem hzero_left_row : ∀ (g : Grid) (r : Nat), r < 4 → validGrid g →
    getRow g r ≠ (moveTableLeft (getRow g r)).1 →
    hasZeroCell (setRow g r (moveTableLeft (getRow g r)).1) := by
  intro g r hr hg hne
  obtain ⟨hlen, hval⟩ := hg
  apply setRow_zero_cell hlen hr
  rw [getRow_eq_pack] at hne ⊢
  exact changed_left_zero (getD_le hval _) (getD_le hval _) (getD_le hval _)
    (getD_le hval _) (Ne.symm hne)

theorem hzero_right_row : ∀ (g : Grid) (r : Nat), r < 4 → validGrid g →
    getRow g r ≠ (moveTableRight (getRow g r)).1 →
    hasZeroCell (setRow g r (moveTableRight (getRow g r)).1) := by
  intro g r hr hg hne
  obtain ⟨hlen, hval⟩ := hg
  apply setRow_zero_cell hlen hr
  rw [getRow_eq_pack] at hne ⊢
  exact changed_right_zero (getD_le hval _) (getD_le hval _) (getD_le hval _)
    (getD_le hval _) (Ne.symm hne)

theorem hzero_left_col : ∀ (g : Grid) (c : Nat), c < 4 → validGrid g →
    getCol g c ≠ (moveTableLeft (getCol g c)).1 →
    hasZeroCell (setCol g c (moveTableLeft (getCol g c)).1) := by
  intro g c hc hg hne
  obtain ⟨hlen, hval⟩ := hg
  apply setCol_zero_cell hlen hc
  rw [getCol_eq_pack] at hne ⊢
  exact changed_left_zero (getD_le hval _) (getD_le hval _) (getD_le hval _)
    (getD_le hval _) (Ne.symm hne)

theorem hzero_right_col : ∀ (g : Grid) (c : Nat), c < 4 → validGrid g →
    getCol g c ≠ (moveTableRight (getCol g c)).1 →
    hasZeroCell (setCol g c (moveTableRight (getCol g c)).1) := by
  intro g c hc hg hne
  obtain ⟨hlen, hval⟩ := hg
  apply setCol_zero_cell hlen hc
  rw [getCol_eq_pack] at hne ⊢
  exact changed_right_zero (getD_le hval _) (getD_le hval _) (getD_le hval _)
    (getD_le hval _) (Ne.symm hne)

theorem slideResult_not_moved (dir : Int) (g : Grid) :
    (slideResult dir g).2.1 = false → (slideResult dir g).1 = g := by
  intro h
  unfold slideResult at h ⊢
  split_ifs at h ⊢ with h0 h1 h2 h3
  · exact applyLines_not_moved _ _ h
  · exact applyLines_not_moved _ _ h
  · exact applyLines_not_moved _ _ h
  · exact applyLines_not_moved _ _ h
  · rfl

theorem slideResult_valid (dir : Int) {g : Grid} (hg : validGrid g) :
    validGrid (slideResult dir g).1 := by
  unfold slideResult
  split_ifs with h0 h1 h2 h3
  · exact applyLines_valid (fun g i p h => setRow_valid h) _ _ hg
  · exact applyLines_valid (fun g i p h => setRow_valid h) _ _ hg
  · exact applyLines_valid (fun g i p h => setCol_valid h) _ _ hg
  · exact applyLines_valid (fun g i p h => setCol_valid h) _ _ hg
  · exact hg

theorem slideResult_moved_zero (dir : Int) {g : Grid} (hg : validGrid g) :
    (slideResult dir g).2.1 = true → hasZeroCell (slideResult dir g).1 := by
  intro h
  unfold slideResult at h ⊢
  split_ifs at h ⊢ with h0 h1 h2 h3
  · exact @applyLines_moved_zero moveTableLeft getRow setRow
      (fun g i p h => setRow_valid h) hzero_left_row _ _ (by decide) hg h
  · exact @applyLines_moved_zero moveTableRight getRow setRow
      (fun g i p h => setRow_valid h) hzero_right_row _ _ (by decide) hg h
  · exact @applyLines_moved_zero moveTableLeft getCol setCol
      (fun g i p h => setCol_valid h) hzero_left_col _ _ (by decide) hg h
  · exact @applyLines_moved_zero moveTableRight getCol setCol
      (fun g i p h => setCol_valid h) hzero_right_col _ _ (by decide) hg h

/-! ### Spawn lemmas -/

theorem emptyCellIndices_mem {g : Grid} {i : Nat} :
    i ∈ emptyCellIndices g ↔ i < 16 ∧ g.getD i 0 = 0 := by
  simp [emptyCellIndices, List.mem_filter, List.mem_range]

theorem addRandomTile_spawn {g : Grid} (hlen : g.length = 16) (hz : hasZeroCell g)
    (k : Nat) (two : Bool) :
    ∃ i, i < 16 ∧ g.getD i 0 = 0 ∧
      addRandomTile k two g = g.set i (if two then 2 else 1) ∧
      nonEmptyCount (addRandomTile k two g) = nonEmptyCount g + 1 := by
  obtain ⟨i0, hi0, hz0⟩ := hz
  have hmem : i0 ∈ emptyCellIndices g := emptyCellIndices_mem.2 ⟨hi0, hz0⟩
  have hne : emptyCellIndices g ≠ [] := by
    intro hc
    rw [hc] at hmem
    simp at hmem
  have hlenpos : 0 < (emptyCellIndices g).length := List.length_pos.2 hne
  have hklt : k % (emptyCellIndices g).length < (emptyCellIndices g).length :=
    Nat.mod_lt _ hlenpos
  have hidxmem : (emptyCellIndices g).getD (k % (emptyCellIndices g).length) 0 ∈
      emptyCellIndices g := by
    rw [List.getD_eq_getElem _ _ hklt]
    exact List.getElem_mem hklt
  have hidx16 : (emptyCellIndices g).getD (k % (emptyCellIndices g).length) 0 < 16 :=
    (emptyCellIndices_mem.1 hidxmem).1
  have hidz : g.getD ((emptyCellIndices g).getD (k % (emptyCellIndices g).length) 0) 0 = 0 :=
    (emptyCellIndices_mem.1 hidxmem).2
  have heq : addRandomTile k two g =
      g.set ((emptyCellIndices g).getD (k % (emptyCellIndices g).length) 0)
        (if two then 2 else 1) := by
    unfold addRandomTile
    rw [if_neg (by simpa using hne)]
  refine ⟨_, hidx16, hidz, heq, ?_⟩
  rw [heq]
  unfold nonEmptyCount
  rw [List.countP_set _ _ _ _ (by omega)]
  have hb : (emptyCellIndices g).getD (k % (emptyCellIndices g).length) 0 < g.length := by
    omega
  have hgidx : g[(emptyCellIndices g).getD (k % (emptyCellIndices g).length) 0] = 0 := by
    have h1 := List.getD_eq_getElem g 0 hb
    rw [h1] at hidz
    exact hidz
  rw [hgidx]
  have hv : ((if two then (2 : Nat) else 1) != 0) = true := by cases two <;> simp
  rw [hv]
  simp

theorem move_eq (dir : Int) (k : Nat) (two : Bool) (s : St) :
    move dir k two s =
      if (slideResult dir s.grid).2.1 then
        ({ grid := addRandomTile k two (slideResult dir s.grid).1,
           score := s.score + (slideResult dir s.grid).2.2,
           best := if s.score + (slideResult dir s.grid).2.2 > s.best then
             s.score + (slideResult dir s.grid).2.2 else s.best }, true)
      else ({ grid := (slideResult dir s.grid).1, score := s.score, best := s.best },
        false) := rfl

theorem slideResult_invalid {dir : Int} (h0 : dir ≠ 0) (h1 : dir ≠ 1) (h2 : dir ≠ 2)
    (h3 : dir ≠ 3) (g : Grid) : slideResult dir g = (g, false, 0) := by
  unfold slideResult
  rw [if_neg h0, if_neg h1, if_neg h2, if_neg h3]

/-! ### Claim theorems -/

/-- C4: for every board state and every direction, if `move` changes no row
or column (it returns `false`), then the grid, the score and the best score
are left exactly as they were and no tile is spawned (the state returned is
the input state unchanged). -/
theorem c4_no_change_no_effects (s : St) (dir : Int) (k : Nat) (two : Bool)
    (h : (move dir k two s).2 = false) : (move dir k two s).1 = s := by
  rw [move_eq] at h ⊢
  split_ifs at h ⊢ with hm
  have hflag : (slideResult dir s.grid).2.1 = false := by
    simpa using hm
  have hgrid := slideResult_not_moved dir s.grid hflag
  show ({ grid := (slideResult dir s.grid).1, score := s.score, best := s.best } : St) = s
  rw [hgrid]

/-- C4 witness: a LEFT move on a board that cannot slide left returns
`false` and leaves the state untouched. -/
theorem c4_no_change_no_effects_witness :
    (move 0 3 true ⟨[1, 2, 3, 4, 0, 0, 0, 0, 0, 0, 0, 0, 0, 0, 0, 0], 5, 7⟩).1 =
      ⟨[1, 2, 3, 4, 0, 0, 0, 0, 0, 0, 0, 0, 0, 0, 0, 0], 5, 7⟩ :=
  c4_no_change_no_effects ⟨[1, 2, 3, 4, 0, 0, 0, 0, 0, 0, 0, 0, 0, 0, 0, 0], 5, 7⟩ 0 3 true
    (by decide)

/-- C10: for any direction value outside {0 = LEFT, 1 = RIGHT, 2 = UP,
3 = DOWN}, `move` falls through every dispatch branch: it returns `false`
and leaves grid, score and best unchanged, spawning nothing. -/
theorem c10_invalid_direction_noop (s : St) (k : Nat) (two : Bool) (dir : Int)
    (h0 : dir ≠ 0) (h1 : dir ≠ 1) (h2 : dir ≠ 2) (h3 : dir ≠ 3) :
    move dir k two s = (s, false) := by
  rw [move_eq, slideResult_invalid h0 h1 h2 h3]
  rfl

/-- C10 witness: direction 7 is rejected without touching the state. -/
theorem c10_invalid_direction_noop_witness :
    move 7 2 false ⟨[1, 0, 0, 0, 0, 0, 0, 0, 0, 0, 0, 0, 0, 0, 0, 2], 4, 9⟩ =
      (⟨[1, 0, 0, 0, 0, 0, 0, 0, 0, 0, 0, 0, 0, 0, 0, 2], 4, 9⟩, false) :=
  c10_invalid_direction_noop ⟨[1, 0, 0, 0, 0, 0, 0, 0, 0, 0, 0, 0, 0, 0, 0, 2], 4, 9⟩ 2 false 7
    (by decide) (by decide) (by decide) (by decide)

/-- C8: across every application of `move` the score never decreases (it
only grows by the move's non-negative merge gain) and the best score never
decreases (it is raised only when the new score exceeds it); the score is
set to 0 by the new-game `reset`. -/
theorem c8_score_best_monotone (s : St) (dir : Int) (k : Nat) (two : Bool)
    (k1 k2 : Nat) (t1 t2 : Bool) :
    s.score ≤ (move dir k two s).1.score ∧ s.best ≤ (move dir k two s).1.best ∧
      (reset k1 t1 k2 t2 s).score = 0 := by
  refine ⟨?_, ?_, rfl⟩
  · rw [move_eq]
    split_ifs with hm hb
    · show s.score ≤ s.score + (slideResult dir s.grid).2.2
      omega
    · show s.score ≤ s.score + (slideResult dir s.grid).2.2
      omega
    · exact Nat.le_refl _
  · rw [move_eq]
    split_ifs with hm hb
    · show s.best ≤ s.score + (slideResult dir s.grid).2.2
      omega
    · exact Nat.le_refl _
    · exact Nat.le_refl _

/-- C5: whenever `move` reports a change, exactly one cell that was empty
right after the slide/merge writes is filled with a fresh tile of exponent
1 or 2, every other cell is untouched, and the number of non-empty cells
is exactly one more than immediately after the slide/merge writes.
(The 90%/10% exponent choice and the uniform cell choice are the two
abstracted `Math.random()` draws `two` and `k`.) -/
theorem c5_effective_move_spawns_exactly_one (s : St) (dir : Int) (k : Nat) (two : Bool)
    (hlen : s.grid.length = 16) (hval : ∀ x ∈ s.grid, x ≤ 15)
    (hmoved : (move dir k two s).2 = true) :
    ∃ i, i < 16 ∧ (slideResult dir s.grid).1.getD i 0 = 0 ∧
      (move dir k two s).1.grid = (slideResult dir s.grid).1.set i (if two then 2 else 1) ∧
      ((move dir k two s).1.grid.getD i 0 = 1 ∨ (move dir k two s).1.grid.getD i 0 = 2) ∧
      nonEmptyCount (move dir k two s).1.grid =
        nonEmptyCount (slideResult dir s.grid).1 + 1 := by
  have hvg : validGrid s.grid := ⟨hlen, hval⟩
  rw [move_eq] at hmoved
  by_cases hm : (slideResult dir s.grid).2.1 = true
  case neg =>
    rw [if_neg hm] at hmoved
    simp at hmoved
  rw [move_eq, if_pos hm]
  have hg1v : validGrid (slideResult dir s.grid).1 := slideResult_valid dir hvg
  have hz : hasZeroCell (slideResult dir s.grid).1 := slideResult_moved_zero dir hvg hm
  obtain ⟨i, hi16, hiz, heq, hcount⟩ := addRandomTile_spawn hg1v.1 hz k two
  refine ⟨i, hi16, hiz, ?_, ?_, ?_⟩
  · show addRandomTile k two (slideResult dir s.grid).1 = _
    exact heq
  · show (addRandomTile k two (slideResult dir s.grid).1).getD i 0 = 1 ∨
      (addRandomTile k two (slideResult dir s.grid).1).getD i 0 = 2
    have hg1len : (slideResult dir s.grid).1.length = 16 := hg1v.1
    rw [heq, getD_set_self _ (by omega)]
    cases two
    · simp
    · simp
  · show nonEmptyCount (addRandomTile k two (slideResult dir s.grid).1) = _
    exact hcount

/-- C5 witness: on the board with a single tile of exponent 1 at cell 1,
a LEFT move slides it to cell 0 and spawns exactly one fresh tile. -/
theorem c5_effective_move_spawns_exactly_one_witness :
    ∃ i, i < 16 ∧
      (slideResult 0 (⟨[0, 1, 0, 0, 0, 0, 0, 0, 0, 0, 0, 0, 0, 0, 0, 0], 5, 7⟩ : St).grid).1.getD
        i 0 = 0 ∧
      (move 0 3 true ⟨[0, 1, 0, 0, 0, 0, 0, 0, 0, 0, 0, 0, 0, 0, 0, 0], 5, 7⟩).1.grid =
        (slideResult 0 (⟨[0, 1, 0, 0, 0, 0, 0, 0, 0, 0, 0, 0, 0, 0, 0, 0], 5, 7⟩ :
          St).grid).1.set i (if true then 2 else 1) ∧
      ((move 0 3 true ⟨[0, 1, 0, 0, 0, 0, 0, 0, 0, 0, 0, 0, 0, 0, 0, 0], 5, 7⟩).1.grid.getD
        i 0 = 1 ∨
       (move 0 3 true ⟨[0, 1, 0, 0, 0, 0, 0, 0, 0, 0, 0, 0, 0, 0, 0, 0], 5, 7⟩).1.grid.getD
        i 0 = 2) ∧
      nonEmptyCount (move 0 3 true ⟨[0, 1, 0, 0, 0, 0, 0, 0, 0, 0, 0, 0, 0, 0, 0, 0],
        5, 7⟩).1.grid =
        nonEmptyCount (slideResult 0 (⟨[0, 1, 0, 0, 0, 0, 0, 0, 0, 0, 0, 0, 0, 0, 0, 0],
          5, 7⟩ : St).grid).1 + 1 :=
  c5_effective_move_spawns_exactly_one ⟨[0, 1, 0, 0, 0, 0, 0, 0, 0, 0, 0, 0, 0, 0, 0, 0], 5, 7⟩
    0 3 true (by decide) (by decide) (by decide)

/-- C9: the new-game reset always produces a board with exactly 2
non-empty cells, each of exponent 1 or 2, and score 0. -/
theorem c9_reset_two_tiles (s : St) (k1 : Nat) (t1 : Bool) (k2 : Nat) (t2 : Bool) :
    nonEmptyCount (reset k1 t1 k2 t2 s).grid = 2 ∧
    (∀ i, (reset k1 t1 k2 t2 s).grid.getD i 0 ≠ 0 →
      (reset k1 t1 k2 t2 s).grid.getD i 0 = 1 ∨ (reset k1 t1 k2 t2 s).grid.getD i 0 = 2) ∧
    (reset k1 t1 k2 t2 s).score = 0 := by
  have h0len : (List.replicate 16 0 : Grid).length = 16 := by simp
  have h0z : hasZeroCell (List.replicate 16 0 : Grid) := ⟨0, by omega, by simp⟩
  obtain ⟨i1, hi1, hz1, heq1, hc1⟩ := addRandomTile_spawn h0len h0z k1 t1
  have hg1len : (addRandomTile k1 t1 (List.replicate 16 0)).length = 16 := by
    rw [heq1]
    simp
  have hz1' : hasZeroCell (addRandomTile k1 t1 (List.replicate 16 0)) := by
    by_cases hI : i1 = 0
    · refine ⟨1, by omega, ?_⟩
      rw [heq1, getD_set_ne _ (by omega)]
      simp
    · refine ⟨0, by omega, ?_⟩
      rw [heq1, getD_set_ne _ (by omega)]
      simp
  obtain ⟨i2, hi2, hz2, heq2, hc2⟩ := addRandomTile_spawn hg1len hz1' k2 t2
  have hcount0 : nonEmptyCount (List.replicate 16 0 : Grid) = 0 := by
    simp [nonEmptyCount]
  refine ⟨?_, ?_, rfl⟩
  · show nonEmptyCount (addRandomTile k2 t2 (addRandomTile k1 t1 (List.replicate 16 0))) = 2
    rw [hc2, hc1, hcount0]
  · intro i
    show (addRandomTile k2 t2 (addRandomTile k1 t1 (List.replicate 16 0))).getD i 0 ≠ 0 →
      (addRandomTile k2 t2 (addRandomTile k1 t1 (List.replicate 16 0))).getD i 0 = 1 ∨
      (addRandomTile k2 t2 (addRandomTile k1 t1 (List.replicate 16 0))).getD i 0 = 2
    rw [heq2, heq1]
    by_cases hii2 : i = i2
    · subst hii2
      rw [getD_set_self _ (by simp; omega)]
      intro _
      cases t2
      · simp
      · simp
    · rw [getD_set_ne _ (Ne.symm hii2)]
      by_cases hii1 : i = i1
      · subst hii1
        rw [getD_set_self _ (by simp; omega)]
        intro _
        cases t1
        · simp
        · simp
      · rw [getD_set_ne _ (Ne.symm hii1)]
        intro hcontra
        exfalso
        apply hcontra
        rcases Nat.lt_or_ge i 16 with hlt | hge
        · rw [List.getD_eq_getElem _ _ (by simpa using hlt)]
          exact List.getElem_replicate _ (by simpa using hlt)
        · rw [List.getD_eq_default _ _ (by simpa using hge)]

/-- C9 witness: a concrete reset. -/
theorem c9_reset_two_tiles_witness :
    nonEmptyCount (reset 3 true 5 false ⟨[], 11, 9⟩).grid = 2 ∧
    (∀ i, (reset 3 true 5 false ⟨[], 11, 9⟩).grid.getD i 0 ≠ 0 →
      (reset 3 true 5 false ⟨[], 11, 9⟩).grid.getD i 0 = 1 ∨
      (reset 3 true 5 false ⟨[], 11, 9⟩).grid.getD i 0 = 2) ∧
    (reset 3 true 5 false ⟨[], 11, 9⟩).score = 0 :=
  c9_reset_two_tiles ⟨[], 11, 9⟩ 3 true 5 false

/-! ### C1: the LEFT table matches the spec's reference algorithm -/

theorem mergeScan_eq_ref : ∀ l : List Nat, (∀ x ∈ l, x ≠ 0) → mergeScan l = refMergeScan l
  | [] => by
    intro h
    rfl
  | [x] => by
    intro h
    rfl
  | x :: y :: rest => by
    intro h
    have hx : x ≠ 0 := h x (by simp)
    by_cases hc : x = y
    · rw [mergeScan, refMergeScan, if_pos ⟨hx, hc⟩, if_pos hc]
      have hrec := mergeScan_eq_ref rest (fun v hv => h v (by simp [hv]))
      show ((x + 1) :: (mergeScan rest).1, (mergeScan rest).2 + (1 <<< (x + 1))) =
        ((x + 1) :: (refMergeScan rest).1, (refMergeScan rest).2 + 2 ^ (x + 1))
      rw [hrec, Nat.shiftLeft_eq, Nat.one_mul]
    · rw [mergeScan, refMergeScan, if_neg (fun hcc => hc hcc.2), if_neg hc]
      have hrec := mergeScan_eq_ref (y :: rest) (fun v hv => h v (by simp [List.mem_cons.1 hv]))
      show (x :: (mergeScan (y :: rest)).1, (mergeScan (y :: rest)).2) =
        (x :: (refMergeScan (y :: rest)).1, (refMergeScan (y :: rest)).2)
      rw [hrec]

theorem refSlideMerge_eq (l : List Nat) :
    refSlideMerge l = ((refMergeScan (l.filter (fun x => decide (x ≠ 0)))).1 ++
      List.replicate (4 - (refMergeScan (l.filter (fun x => decide (x ≠ 0)))).1.length) 0,
      (refMergeScan (l.filter (fun x => decide (x ≠ 0)))).2) := rfl

theorem slideAndMerge_eq_ref (l : List Nat) : slideAndMerge l = refSlideMerge l := by
  rw [slideAndMerge_eq, refSlideMerge_eq]
  have hfil : l.filter (fun x => decide (x ≠ 0)) = l.filter (fun x => x != 0) :=
    List.filter_congr (by
      intro a _
      by_cases h : a = 0 <;> simp [h])
  rw [hfil]
  have hms : mergeScan (l.filter (fun x => x != 0)) =
      refMergeScan (l.filter (fun x => x != 0)) := by
    apply mergeScan_eq_ref
    intro v hv
    have := (List.mem_filter.1 hv).2
    simpa using this
  rw [hms]

/-- C1: for every packed row r in 0..65535 the LEFT table entry built by
`buildRowTable` equals the reference slide-left-and-merge of r's four
exponents, written from the spec's words: drop zero cells preserving
order, scan left to right merging each cell with its immediate next
un-merged equal neighbour into a single cell of exponent+1 (adding
2^(exponent+1) to the gained score, each tile merging at most once), then
right-pad with zeros to 4 cells; in particular exponents [2,2,2,2] yield
[3,3,0,0] with gained 16. -/
theorem c1_left_table_matches_reference :
    (∀ r : Fin 65536, moveTableLeft r.val =
      (packRow (refSlideMerge (unpackRow r.val)).1, (refSlideMerge (unpackRow r.val)).2)) ∧
    moveTableLeft (packRow [2, 2, 2, 2]) = (packRow [3, 3, 0, 0], 16) := by
  constructor
  · intro r
    rw [moveTableLeft_eq, slideAndMerge_eq_ref]
  · decide

/-! ### C2: canMove characterization -/

theorem row_unpack_getRow {g : Grid} (hval : ∀ x ∈ g, x ≤ 15) (r : Nat) :
    unpackRow (getRow g r) = [g.getD (r * 4) 0, g.getD (r * 4 + 1) 0,
      g.getD (r * 4 + 2) 0, g.getD (r * 4 + 3) 0] := by
  rw [getRow_eq_pack]
  exact unpackRow_packRow (getD_le hval _) (getD_le hval _) (getD_le hval _) (getD_le hval _)

theorem col_unpack_getCol {g : Grid} (hval : ∀ x ∈ g, x ≤ 15) (c : Nat) :
    unpackRow (getCol g c) = [g.getD c 0, g.getD (4 + c) 0,
      g.getD (8 + c) 0, g.getD (12 + c) 0] := by
  rw [getCol_eq_pack]
  exact unpackRow_packRow (getD_le hval _) (getD_le hval _) (getD_le hval _) (getD_le hval _)

theorem rowAdjacent_iff {g : Grid} (hval : ∀ x ∈ g, x ≤ 15) (r : Nat) :
    (∃ i, i < 3 ∧ (((unpackRow (getRow g r)).getD i 0 != 0) &&
      ((unpackRow (getRow g r)).getD i 0 == (unpackRow (getRow g r)).getD (i + 1) 0)) = true) ↔
    ∃ i, i < 3 ∧ g.getD (r * 4 + i) 0 ≠ 0 ∧
      g.getD (r * 4 + i) 0 = g.getD (r * 4 + i + 1) 0 := by
  rw [row_unpack_getRow hval]
  constructor
  · rintro ⟨i, hi, h⟩
    interval_cases i <;>
      simp only [List.getD_cons_zero, List.getD_cons_succ, Bool.and_eq_true,
        bne_iff_ne, beq_iff_eq] at h
    · exact ⟨0, by omega, by simpa using h.1, by simpa using h.2⟩
    · exact ⟨1, by omega, by simpa using h.1, by simpa using h.2⟩
    · exact ⟨2, by omega, by simpa using h.1, by simpa using h.2⟩
  · rintro ⟨i, hi, h1, h2⟩
    refine ⟨i, hi, ?_⟩
    interval_cases i <;>
      simp only [List.getD_cons_zero, List.getD_cons_succ, Bool.and_eq_true,
        bne_iff_ne, beq_iff_eq]
    · exact ⟨by simpa using h1, by simpa using h2⟩
    · exact ⟨by simpa using h1, by simpa using h2⟩
    · exact ⟨by simpa using h1, by simpa using h2⟩

theorem colAdjacent_iff {g : Grid} (hval : ∀ x ∈ g, x ≤ 15) (c : Nat) :
    (∃ i, i < 3 ∧ (((unpackRow (getCol g c)).getD i 0 != 0) &&
      ((unpackRow (getCol g c)).getD i 0 == (unpackRow (getCol g c)).getD (i + 1) 0)) = true) ↔
    ∃ i, i < 3 ∧ g.getD (i * 4 + c) 0 ≠ 0 ∧
      g.getD (i * 4 + c) 0 = g.getD ((i + 1) * 4 + c) 0 := by
  rw [col_unpack_getCol hval]
  constructor
  · rintro ⟨i, hi, h⟩
    interval_cases i <;>
      simp only [List.getD_cons_zero, List.getD_cons_succ, Bool.and_eq_true,
        bne_iff_ne, beq_iff_eq] at h
    · exact ⟨0, by omega, by simpa using h.1, by simpa using h.2⟩
    · exact ⟨1, by omega, by simpa using h.1, by simpa using h.2⟩
    · exact ⟨2, by omega, by simpa using h.1, by simpa using h.2⟩
  · rintro ⟨i, hi, h1, h2⟩
    refine ⟨i, hi, ?_⟩
    interval_cases i <;>
      simp only [List.getD_cons_zero, List.getD_cons_succ, Bool.and_eq_true,
        bne_iff_ne, beq_iff_eq]
    · exact ⟨by simpa using h1, by simpa using h2⟩
    · exact ⟨by simpa using h1, by simpa using h2⟩
    · exact ⟨by simpa using h1, by simpa using h2⟩

theorem canMove_true_iff {g : Grid} (hval : ∀ x ∈ g, x ≤ 15) :
    canMove g = true ↔
      (∃ i, i < 16 ∧ g.getD i 0 = 0) ∨
      (∃ r, r < 4 ∧ ∃ i, i < 3 ∧ g.getD (r * 4 + i) 0 ≠ 0 ∧
        g.getD (r * 4 + i) 0 = g.getD (r * 4 + i + 1) 0) ∨
      (∃ c, c < 4 ∧ ∃ i, i < 3 ∧ g.getD (i * 4 + c) 0 ≠ 0 ∧
        g.getD (i * 4 + c) 0 = g.getD ((i + 1) * 4 + c) 0) := by
  unfold canMove
  simp only [Bool.or_eq_true, List.any_eq_true, List.mem_range]
  constructor
  · rintro ((⟨i, hi, h⟩ | ⟨r, hr, h⟩) | ⟨c, hc, h⟩)
    · exact Or.inl ⟨i, hi, by simpa using h⟩
    · exact Or.inr (Or.inl ⟨r, hr, (rowAdjacent_iff hval r).1 h⟩)
    · exact Or.inr (Or.inr ⟨c, hc, (colAdjacent_iff hval c).1 h⟩)
  · rintro (⟨i, hi, h⟩ | ⟨r, hr, h⟩ | ⟨c, hc, h⟩)
    · exact Or.inl (Or.inl ⟨i, hi, by simpa using h⟩)
    · exact Or.inl (Or.inr ⟨r, hr, (rowAdjacent_iff hval r).2 h⟩)
    · exact Or.inr ⟨c, hc, (colAdjacent_iff hval c).2 h⟩

/-- C2: `canMove` returns false exactly when all 16 cells are non-zero and
no row and no column contains two adjacent equal exponents; equivalently it
returns true iff some cell is empty, or some row or some column has two
adjacent equal non-zero exponents.  (Stated for boards satisfying the
representation invariant that every cell is a 4-bit exponent.) -/
theorem c2_canMove_characterization (g : Grid) (hval : ∀ x ∈ g, x ≤ 15) :
    (canMove g = false ↔
      (∀ i, i < 16 → g.getD i 0 ≠ 0) ∧
      (∀ r, r < 4 → ∀ i, i < 3 → g.getD (r * 4 + i) 0 ≠ g.getD (r * 4 + i + 1) 0) ∧
      (∀ c, c < 4 → ∀ i, i < 3 → g.getD (i * 4 + c) 0 ≠ g.getD ((i + 1) * 4 + c) 0)) ∧
    (canMove g = true ↔
      (∃ i, i < 16 ∧ g.getD i 0 = 0) ∨
      (∃ r, r < 4 ∧ ∃ i, i < 3 ∧ g.getD (r * 4 + i) 0 ≠ 0 ∧
        g.getD (r * 4 + i) 0 = g.getD (r * 4 + i + 1) 0) ∨
      (∃ c, c < 4 ∧ ∃ i, i < 3 ∧ g.getD (i * 4 + c) 0 ≠ 0 ∧
        g.getD (i * 4 + c) 0 = g.getD ((i + 1) * 4 + c) 0)) := by
  refine ⟨?_, canMove_true_iff hval⟩
  rw [Bool.eq_false_iff, Ne, canMove_true_iff hval]
  push_neg
  constructor
  · rintro ⟨h1, h2, h3⟩
    refine ⟨h1, ?_, ?_⟩
    · intro r hr i hi
      have hnz : g.getD (r * 4 + i) 0 ≠ 0 := h1 _ (by omega)
      exact h2 r hr i hi hnz
    · intro c hc i hi
      have hnz : g.getD (i * 4 + c) 0 ≠ 0 := h1 _ (by omega)
      exact h3 c hc i hi hnz
  · rintro ⟨h1, h2, h3⟩
    exact ⟨h1, fun r hr i hi _ => h2 r hr i hi, fun c hc i hi _ => h3 c hc i hi⟩

/-- C2 witness: a full checkerboard has no move; its characterization holds. -/
theorem c2_canMove_characterization_witness :
    (canMove [1, 2, 1, 2, 2, 1, 2, 1, 1, 2, 1, 2, 2, 1, 2, 1] = false ↔
      (∀ i, i < 16 → ([1, 2, 1, 2, 2, 1, 2, 1, 1, 2, 1, 2, 2, 1, 2, 1] : Grid).getD i 0 ≠ 0) ∧
      (∀ r, r < 4 → ∀ i, i < 3 →
        ([1, 2, 1, 2, 2, 1, 2, 1, 1, 2, 1, 2, 2, 1, 2, 1] : Grid).getD (r * 4 + i) 0 ≠
        ([1, 2, 1, 2, 2, 1, 2, 1, 1, 2, 1, 2, 2, 1, 2, 1] : Grid).getD (r * 4 + i + 1) 0) ∧
      (∀ c, c < 4 → ∀ i, i < 3 →
        ([1, 2, 1, 2, 2, 1, 2, 1, 1, 2, 1, 2, 2, 1, 2, 1] : Grid).getD (i * 4 + c) 0 ≠
        ([1, 2, 1, 2, 2, 1, 2, 1, 1, 2, 1, 2, 2, 1, 2, 1] : Grid).getD ((i + 1) * 4 + c) 0)) ∧
    (canMove [1, 2, 1, 2, 2, 1, 2, 1, 1, 2, 1, 2, 2, 1, 2, 1] = true ↔
      (∃ i, i < 16 ∧ ([1, 2, 1, 2, 2, 1, 2, 1, 1, 2, 1, 2, 2, 1, 2, 1] : Grid).getD i 0 = 0) ∨
      (∃ r, r < 4 ∧ ∃ i, i < 3 ∧
        ([1, 2, 1, 2, 2, 1, 2, 1, 1, 2, 1, 2, 2, 1, 2, 1] : Grid).getD (r * 4 + i) 0 ≠ 0 ∧
        ([1, 2, 1, 2, 2, 1, 2, 1, 1, 2, 1, 2, 2, 1, 2, 1] : Grid).getD (r * 4 + i) 0 =
        ([1, 2, 1, 2, 2, 1, 2, 1, 1, 2, 1, 2, 2, 1, 2, 1] : Grid).getD (r * 4 + i + 1) 0) ∨
      (∃ c, c < 4 ∧ ∃ i, i < 3 ∧
        ([1, 2, 1, 2, 2, 1, 2, 1, 1, 2, 1, 2, 2, 1, 2, 1] : Grid).getD (i * 4 + c) 0 ≠ 0 ∧
        ([1, 2, 1, 2, 2, 1, 2, 1, 1, 2, 1, 2, 2, 1, 2, 1] : Grid).getD (i * 4 + c) 0 =
        ([1, 2, 1, 2, 2, 1, 2, 1, 1, 2, 1, 2, 2, 1, 2, 1] : Grid).getD ((i + 1) * 4 + c) 0)) :=
  c2_canMove_characterization [1, 2, 1, 2, 2, 1, 2, 1, 1, 2, 1, 2, 2, 1, 2, 1] (by decide)

/-! ### C3: idempotence fails; the amended fixed-point property -/

theorem mergeScan_id : ∀ l : List Nat,
    List.Chain' (fun x y => ¬(x ≠ 0 ∧ x = y)) l → mergeScan l = (l, 0)
  | [] => by
    intro h
    rfl
  | [x] => by
    intro h
    rfl
  | x :: y :: rest => by
    intro h
    have hc : ¬(x ≠ 0 ∧ x = y) := (List.chain'_cons.1 h).1
    rw [mergeScan, if_neg hc]
    have hrec := mergeScan_id (y :: rest) (List.chain'_cons.1 h).2
    show (x :: (mergeScan (y :: rest)).1, (mergeScan (y :: rest)).2) = (x :: y :: rest, 0)
    rw [hrec]

theorem slideAndMerge_fixed {front : List Nat} {pad : Nat}
    (hnz : ∀ x ∈ front, x ≠ 0) (hlen : front.length + pad = 4)
    (hadj : List.Chain' (fun x y => ¬(x ≠ 0 ∧ x = y)) (front ++ List.replicate pad 0)) :
    slideAndMerge (front ++ List.replicate pad 0) = (front ++ List.replicate pad 0, 0) := by
  have hfil : (front ++ List.replicate pad 0).filter (fun x => x != 0) = front := by
    rw [List.filter_append, List.filter_replicate_of_neg (by simp), List.append_nil]
    exact List.filter_eq_self.2 (fun a ha => by simpa using hnz a ha)
  have hchain : List.Chain' (fun x y => ¬(x ≠ 0 ∧ x = y)) front :=
    (List.chain'_append.1 hadj).1
  rw [slideAndMerge_eq, hfil, mergeScan_id front hchain]
  have hpad : 4 - front.length = pad := by omega
  rw [hpad]

/-- C3 counterexample: the LEFT transform is not idempotent.  For the row
0x2222 (exponents [2,2,2,2]) the first application yields 0x3300
(exponents [3,3,0,0]) and a second application merges again, to 0x4000. -/
theorem c3_left_transform_not_idempotent :
    (moveTableLeft (moveTableLeft 8738).1).1 ≠ (moveTableLeft 8738).1 := by decide

/-- C3 amended: applying the LEFT transform to the row component of the
LEFT transform of r returns that row unchanged (with gained score 0)
provided the transformed row's cells are all at most 15 (no merge of two
exponent-15 tiles overflowed the 4-bit field) and no two adjacent cells of
the transformed row are equal and non-zero (nothing is left to merge). -/
theorem c3_left_transform_idempotent_amended (r : Nat)
    (h15 : ∀ x ∈ (slideAndMerge (unpackRow r)).1, x ≤ 15)
    (hadj : List.Chain' (fun x y => ¬(x ≠ 0 ∧ x = y)) (slideAndMerge (unpackRow r)).1) :
    moveTableLeft ((moveTableLeft r).1) = ((moveTableLeft r).1, 0) := by
  have hcellslen : (slideAndMerge (unpackRow r)).1.length = 4 :=
    slideAndMerge_length (by simp [unpackRow])
  have hcells_eq : (slideAndMerge (unpackRow r)).1 =
      (mergeScan ((unpackRow r).filter (fun x => x != 0))).1 ++
      List.replicate (4 - (mergeScan ((unpackRow r).filter (fun x => x != 0))).1.length) 0 :=
    rfl
  have hFnz : ∀ x ∈ (mergeScan ((unpackRow r).filter (fun x => x != 0))).1, x ≠ 0 := by
    apply mergeScan_nonzero
    intro v hv
    have := (List.mem_filter.1 hv).2
    simpa using this
  have hFle : (mergeScan ((unpackRow r).filter (fun x => x != 0))).1.length ≤ 4 := by
    have h1 := mergeScan_length_le ((unpackRow r).filter (fun x => x != 0))
    have h2 := List.length_filter_le (fun x => x != 0) (unpackRow r)
    have h3 : (unpackRow r).length = 4 := by simp [unpackRow]
    omega
  have hfix : slideAndMerge ((slideAndMerge (unpackRow r)).1) =
      ((slideAndMerge (unpackRow r)).1, 0) := by
    rw [hcells_eq]
    exact slideAndMerge_fixed hFnz (by omega) (by rw [← hcells_eq]; exact hadj)
  obtain ⟨p, q, u, t, hd⟩ := length_four_decomp hcellslen
  have hrt : unpackRow (packRow ((slideAndMerge (unpackRow r)).1)) =
      (slideAndMerge (unpackRow r)).1 := by
    rw [hd]
    exact unpackRow_packRow (h15 p (by rw [hd]; simp)) (h15 q (by rw [hd]; simp))
      (h15 u (by rw [hd]; simp)) (h15 t (by rw [hd]; simp))
  rw [moveTableLeft_eq r]
  rw [moveTableLeft_eq (packRow ((slideAndMerge (unpackRow r)).1)), hrt, hfix]

/-- C3 amended witness: the row 0x1234 slides to itself and its transform
satisfies the amended hypotheses; re-transforming is the identity. -/
theorem c3_left_transform_idempotent_amended_witness :
    moveTableLeft ((moveTableLeft 4660).1) = ((moveTableLeft 4660).1, 0) :=
  c3_left_transform_idempotent_amended 4660 (by decide)
    (by
      rw [show (slideAndMerge (unpackRow 4660)).1 = [1, 2, 3, 4] from by decide]
      simp)

/-! ### C6: RIGHT table as mirrored LEFT table -/

theorem unpack_mirror (v : Nat) : unpackRow (mirrorRow v) = (unpackRow v).reverse := by
  unfold mirrorRow
  have hrev : (unpackRow v).reverse =
      [v &&& 0xF, (v >>> 4) &&& 0xF, (v >>> 8) &&& 0xF, (v >>> 12) &&& 0xF] := rfl
  rw [hrev]
  exact unpackRow_packRow Nat.and_le_right Nat.and_le_right Nat.and_le_right Nat.and_le_right

/-- C6 counterexample: at r = 255 (exponents [0,0,15,15]) the RIGHT entry
row is 16, while the mirror image of the LEFT entry of the mirrored row is
0: the merge of two exponent-15 tiles overflows the 4-bit field, and the
overflow bit lands differently on the two sides of the symmetry. -/
theorem c6_right_mirror_counterexample :
    moveTableRight 255 ≠
      (mirrorRow ((moveTableLeft (mirrorRow 255)).1), (moveTableLeft (mirrorRow 255)).2) := by
  decide

/-- C6 amended: for every packed row r, the gained score of the RIGHT
entry always equals the gained score of the LEFT entry of the mirrored
(nibble-reversed) row, and the RIGHT entry row equals the mirror image of
that LEFT entry row provided the slid cells are all at most 15 (no merge
of two exponent-15 tiles overflowed). -/
theorem c6_right_table_mirror_amended (r : Fin 65536) :
    (moveTableRight r.val).2 = (moveTableLeft (mirrorRow r.val)).2 ∧
    ((∀ x ∈ (slideAndMerge (unpackRow r.val).reverse).1, x ≤ 15) →
      (moveTableRight r.val).1 = mirrorRow ((moveTableLeft (mirrorRow r.val)).1)) := by
  constructor
  · rw [moveTableRight_eq, moveTableLeft_eq, unpack_mirror]
  · intro h15
    rw [moveTableRight_eq, moveTableLeft_eq, unpack_mirror]
    have hlen4 : (slideAndMerge (unpackRow r.val).reverse).1.length = 4 :=
      slideAndMerge_length (by simp [unpackRow])
    obtain ⟨p, q, u, t, hd⟩ := length_four_decomp hlen4
    unfold mirrorRow
    have hrt : unpackRow (packRow ((slideAndMerge (unpackRow r.val).reverse).1)) =
        (slideAndMerge (unpackRow r.val).reverse).1 := by
      rw [hd]
      exact unpackRow_packRow (h15 p (by rw [hd]; simp)) (h15 q (by rw [hd]; simp))
        (h15 u (by rw [hd]; simp)) (h15 t (by rw [hd]; simp))
    rw [hrt]

/-- C6 amended witness: at r = 0x1234 both conjuncts hold, with the
overflow-free hypothesis discharged by evaluation. -/
theorem c6_right_table_mirror_amended_witness :
    (moveTableRight 4660).2 = (moveTableLeft (mirrorRow 4660)).2 ∧
    (moveTableRight 4660).1 = mirrorRow ((moveTableLeft (mirrorRow 4660)).1) :=
  ⟨(c6_right_table_mirror_amended 4660).1,
    (c6_right_table_mirror_amended 4660).2 (by decide)⟩

/-! ### C7: range of the stored table entries -/

/-- C7 counterexample: the LEFT entry for row 0xFF00 (exponents
[15,15,0,0]) stores the packed row 65536, which is not a 16-bit value in
0..65535: the merge of the two exponent-15 tiles produced exponent 16,
and 16 <<< 12 overflows the top 4-bit field. -/
theorem c7_entry_range_counterexample : 65535 < (moveTableLeft 65280).1 := by decide

/-- C7 amended: for every packed row r whose slid cells are all at most
15 (no merge of two exponent-15 tiles), the stored LEFT entry row is a
16-bit value at most 65535 whose four 4-bit fields hold exactly the slid
cells (hence each field is in [0,15]); likewise for the RIGHT entry with
the reversed slide. -/
theorem c7_table_entry_range_amended (r : Fin 65536) :
    ((∀ x ∈ (slideAndMerge (unpackRow r.val)).1, x ≤ 15) →
      (moveTableLeft r.val).1 ≤ 65535 ∧
      unpackRow ((moveTableLeft r.val).1) = (slideAndMerge (unpackRow r.val)).1) ∧
    ((∀ x ∈ (slideAndMerge (unpackRow r.val).reverse).1, x ≤ 15) →
      (moveTableRight r.val).1 ≤ 65535 ∧
      unpackRow ((moveTableRight r.val).1) =
        (slideAndMerge (unpackRow r.val).reverse).1.reverse) := by
  constructor
  · intro h15
    rw [moveTableLeft_eq]
    have hlen4 : (slideAndMerge (unpackRow r.val)).1.length = 4 :=
      slideAndMerge_length (by simp [unpackRow])
    obtain ⟨p, q, u, t, hd⟩ := length_four_decomp hlen4
    rw [hd]
    have hp := h15 p (by rw [hd]; simp)
    have hq := h15 q (by rw [hd]; simp)
    have hu := h15 u (by rw [hd]; simp)
    have ht := h15 t (by rw [hd]; simp)
    constructor
    · have := packRow_lt hp hq hu ht
      omega
    · exact unpackRow_packRow hp hq hu ht
  · intro h15
    rw [moveTableRight_eq]
    have hlen4 : (slideAndMerge (unpackRow r.val).reverse).1.length = 4 :=
      slideAndMerge_length (by simp [unpackRow])
    obtain ⟨p, q, u, t, hd⟩ := length_four_decomp hlen4
    rw [hd]
    have hp := h15 p (by rw [hd]; simp)
    have hq := h15 q (by rw [hd]; simp)
    have hu := h15 u (by rw [hd]; simp)
    have ht := h15 t (by rw [hd]; simp)
    show (packRow [t, u, q, p] ≤ 65535 ∧ unpackRow (packRow [t, u, q, p]) = [t, u, q, p])
    constructor
    · have := packRow_lt ht hu hq hp
      omega
    · exact unpackRow_packRow ht hu hq hp

/-- C7 amended witness: at r = 0x0123 both entries are in range and their
fields are the slid cells. -/
theorem c7_table_entry_range_amended_witness :
    ((moveTableLeft 291).1 ≤ 65535 ∧
      unpackRow ((moveTableLeft 291).1) = (slideAndMerge (unpackRow 291)).1) ∧
    ((moveTableRight 291).1 ≤ 65535 ∧
      unpackRow ((moveTableRight 291).1) =
        (slideAndMerge (unpackRow 291).reverse).1.reverse) :=
  ⟨(c7_table_entry_range_amended 291).1 (by decide),
    (c7_table_entry_range_amended 291).2 (by decide)⟩

end Game2048
